import Mathlib

/-!
Shallow embedding of the resume-parsing pipeline (cleansing, basic features,
category features, encoding, split stages) and verification of its
specification properties.

Text processing from the Python source is modelled over `List Char`; regular
expression searches are modelled by explicit scanning functions that implement
the same match semantics on the character classes the data uses (ASCII plus
the Cyrillic block).  Machine floats carrying data values are modelled as `ℚ`
with `Option` for the NaN / missing sentinel.
-/

set_option maxRecDepth 10000

/-! ### Character-level utilities -/

/-- Non-breaking space character (Python `"\xa0"`). -/
def nbspC : Char := ' '

/-- Byte-order mark character (Python `"\ufeff"`). -/
def feffC : Char := '﻿'

/-- `isPrefixL p s` : `p` is a prefix of `s` (over characters). -/
def isPrefixL : List Char → List Char → Bool
  | [], _ => true
  | _ :: _, [] => false
  | a :: p, b :: s => decide (a = b) && isPrefixL p s

/-- `containsL pat s` : Python's substring test `pat in s`. -/
def containsL (pat : List Char) : List Char → Bool
  | [] => pat.isEmpty
  | b :: t => isPrefixL pat (b :: t) || containsL pat t

/-- Model of Python `str.lower()` on the alphabets occurring in the data:
ASCII letters and the Cyrillic block (А–Я, Ё). -/
def ruLower (c : Char) : Char :=
  if 0x410 ≤ c.toNat ∧ c.toNat ≤ 0x42F then Char.ofNat (c.toNat + 0x20)
  else if c.toNat = 0x401 then Char.ofNat 0x451
  else if 0x41 ≤ c.toNat ∧ c.toNat ≤ 0x5A then Char.ofNat (c.toNat + 0x20)
  else c

/-- The whitespace characters occurring in this data set (the characters
Python `str.strip()` strips and the regex class `\s` matches here, including
the non-breaking space). -/
def stripChars : List Char := [' ', '\t', '\n', '\r', '\x0B', '\x0C', nbspC]

/-- Whitespace test used by `str.strip()` and by the `\s*` regex parts. -/
def isStripSpace (c : Char) : Bool := decide (c ∈ stripChars)

/-- Left half of Python `str.strip()`. -/
def trimLeft (l : List Char) : List Char := l.dropWhile isStripSpace

/-- Python `str.strip()`: drop leading and trailing whitespace. -/
def stripL (l : List Char) : List Char :=
  ((trimLeft l).reverse.dropWhile isStripSpace).reverse

/-- Python `str.split(",")`. -/
def splitOnComma (l : List Char) : List (List Char) :=
  l.foldr
    (fun c acc =>
      if c = ',' then [] :: acc
      else
        match acc with
        | h :: r => (c :: h) :: r
        | [] => [[c]])
    [[]]

/-- Numeric value of a list of decimal digit characters (most significant first). -/
def natOfDigits (l : List Char) : Nat :=
  l.foldl (fun n c => n * 10 + (c.toNat - 48)) 0

/-! ### Category Feature Stage (`pipeline/category_features.py`) -/

/-- Substring signal "переезд" (relocation). -/
def sPereezd : List Char := "переезд".toList

/-- Substring signal "не готов". -/
def sNeGotov : List Char := "не готов".toList

/-- Substring signal "не готова". -/
def sNeGotova : List Char := "не готова".toList

/-- Substring signal "готов к переезду". -/
def sGotovKP : List Char := "готов к переезду".toList

/-- Substring signal "готова к переезду". -/
def sGotovaKP : List Char := "готова к переезду".toList

/-- Substring signal "командиров" (business trips). -/
def sKomandirov : List Char := "командиров".toList

/-- Substring signal "редк" (rare). -/
def sRedk : List Char := "редк".toList

/-- Substring signal "готов". -/
def sGotov : List Char := "готов".toList

/-- Substring signal "готова". -/
def sGotova : List Char := "готова".toList

/-- The comma-split, stripped, nonempty parts of the raw location field
(`parts_raw` in `CategoryHandler._parse_city_mobility`). -/
def partsRawOf (raw : List Char) : List (List Char) :=
  ((splitOnComma raw).map stripL).filter (fun p => decide (p ≠ []))

/-- The lower-cased parts (`parts_lower` in the source). -/
def partsLowerOf (raw : List Char) : List (List Char) :=
  (partsRawOf raw).map (List.map ruLower)

/-- One iteration of the relocation loop in
`CategoryHandler._parse_city_mobility`: the running flag is overwritten by
each part that mentions "переезд". -/
def relocStep (reloc : Bool) (part : List Char) : Bool :=
  if containsL sPereezd part then
    if containsL sNeGotov part || containsL sNeGotova part then false
    else if containsL sGotovKP part || containsL sGotovaKP part then true
    else reloc
  else reloc

/-- The relocation flag computed by the source's loop over all parts. -/
def relocOf (parts : List (List Char)) : Bool := parts.foldl relocStep false

/-- The business-trips loop of `CategoryHandler._parse_city_mobility`,
carrying the `level` and `found_trips` state; the "не готов" case breaks out
of the loop. -/
def tripsLoop : List (List Char) → String → Bool → String × Bool
  | [], level, found => (level, found)
  | part :: rest, level, found =>
    if !containsL sKomandirov part then tripsLoop rest level found
    else if containsL sNeGotov part || containsL sNeGotova part then ("none", true)
    else if containsL sRedk part then tripsLoop rest "rare" true
    else if containsL sGotov part || containsL sGotova part then
      tripsLoop rest (if level = "unknown" then "regular" else level) true
    else tripsLoop rest level true

/-- Business-trips level for one row (the `if not found_trips` reset included). -/
def tripsOf (parts : List (List Char)) : String :=
  let r := tripsLoop parts "unknown" false
  if r.2 then r.1 else "unknown"

/-- `CategoryHandler._parse_city_mobility` for one row: city, relocation flag
(0/1) and business-trips level from the raw location field. -/
def parse_city_mobility (raw : List Char) : List Char × Nat × String :=
  let parts_raw := partsRawOf raw
  let parts_lower := parts_raw.map (List.map ruLower)
  (parts_raw.headD [], if relocOf parts_lower then 1 else 0, tripsOf parts_lower)

/-- Spec-side predicate: the part carries an explicit "not willing to
relocate" signal (mentions relocation together with a not-willing marker). -/
def notWillingReloc (p : List Char) : Bool :=
  containsL sPereezd p && (containsL sNeGotov p || containsL sNeGotova p)

/-- Predicate for a part that makes the source's loop set the flag to `true`:
mentions relocation, has no not-willing marker, and has an explicit
willing-to-relocate phrase. -/
def decisiveWillingReloc (p : List Char) : Bool :=
  containsL sPereezd p && !(containsL sNeGotov p || containsL sNeGotova p) &&
    (containsL sGotovKP p || containsL sGotovaKP p)

/-- Location field used to refute claim C1: a not-willing part followed by a
willing part. -/
def rawC1 : List Char := "не готов к переезду, готов к переезду".toList

/-- Location field used to instantiate the amended claim C1. -/
def rawC1w : List Char := "Москва, не готов к переезду".toList

/-! ### Cleaning Stage (`pipeline/cleansing.py`) -/

/-- A cell of the Record Set: free text, or a numeric value with `none` as
the NaN / missing sentinel. -/
inductive Cell where
  | str (s : List Char)
  | numC (q : Option ℚ)
deriving DecidableEq

/-- Effect of the two dataframe-wide replacements of
`DataCleaningHandler.process` on one text value: every byte-order mark is
replaced by the empty string, then every non-breaking space by a plain
space. -/
def cleanStr (s : List Char) : List Char :=
  (s.filter (fun c => decide (c ≠ feffC))).map (fun c => if c = nbspC then ' ' else c)

/-- The replacements act on text cells and leave numeric cells unchanged. -/
def cleanCell : Cell → Cell
  | .str s => .str (cleanStr s)
  | .numC q => .numC q

/-- The replacements applied to all cells of one row. -/
def cleanRow (r : List Cell) : List Cell := r.map cleanCell

/-- `DataFrame.drop_duplicates()`: keep the first occurrence of every row. -/
def dropDuplicates {α : Type} [DecidableEq α] : List α → List α
  | [] => []
  | a :: t => a :: dropDuplicates (t.filter (fun x => decide (x ≠ a)))
termination_by l => l.length
decreasing_by
  simp only [List.length_cons]
  exact Nat.lt_succ_of_le (List.length_filter_le _ _)

/-- `DataCleaningHandler.process` on the Record Set: normalize text
artifacts in every cell, then drop exact-duplicate rows. -/
def cleansing_process (df : List (List Cell)) : List (List Cell) :=
  dropDuplicates (df.map cleanRow)

/-! ### Basic Feature Stage (`pipeline/basic_features.py`) -/

/-- First maximal decimal digit run of a string together with the text after
it: the match of the regex `\d+(.*)` (modulo the newline cut applied by the
caller), `none` when the string has no digit. -/
def firstNumSplit : List Char → Option (List Char × List Char)
  | [] => none
  | c :: t =>
    if c.isDigit then some (c :: t.takeWhile Char.isDigit, t.dropWhile Char.isDigit)
    else firstNumSplit t

/-- The character class `[0-9a-zA-Zа-яА-Я]` of the currency tokenizer. -/
def alnumRu (c : Char) : Bool :=
  c.isDigit || (decide ('a' ≤ c) && decide (c ≤ 'z')) ||
    (decide ('A' ≤ c) && decide (c ≤ 'Z')) ||
    (decide (0x430 ≤ c.toNat) && decide (c.toNat ≤ 0x44F)) ||
    (decide (0x410 ≤ c.toNat) && decide (c.toNat ≤ 0x42F))

/-- `re.split(r"[^0-9a-zA-Zа-яА-Я]+", text)` with empty pieces removed: the
maximal runs of alphanumeric characters. -/
def tokensOf : List Char → List (List Char)
  | [] => []
  | [c] => if alnumRu c then [[c]] else []
  | c :: d :: t =>
    if alnumRu c then
      if alnumRu d then
        match tokensOf (d :: t) with
        | tok :: rest => (c :: tok) :: rest
        | [] => [[c]]
      else [c] :: tokensOf (d :: t)
    else tokensOf (d :: t)

/-- The salary text after `str.replace("\xa0", " ")` followed by
`str.replace(" ", "")`: all spaces and non-breaking spaces removed. -/
def stripSeps (s : List Char) : List Char :=
  (s.map (fun c => if c = nbspC then ' ' else c)).filter (fun c => decide (c ≠ ' '))

/-- Currency extraction of `BasicHandler._parse_salary_and_currency` from
the text after the first integer: cut at the end of the line (the regex
`.*`), strip, lower-case, split into alphanumeric tokens, take the last
one, "unknown" when there is none. -/
def currency_of_tail (rest : List Char) : List Char :=
  ((tokensOf ((stripL (rest.takeWhile (fun c => decide (c ≠ '\n')))).map
    ruLower)).getLast?).getD "unknown".toList

/-- `BasicHandler._parse_salary_and_currency` for one row: replace
non-breaking spaces by spaces, delete all spaces, extract the first integer
as the salary; the currency comes from the text following the integer. -/
def parse_salary_and_currency (s : List Char) : Option Nat × List Char :=
  match firstNumSplit (stripSeps s) with
  | none => (none, "unknown".toList)
  | some dr => (some (natOfDigits dr.1), currency_of_tail dr.2)

/-- Modelled from the spec's words for claim C8 (original form): strip space
and non-breaking-space separators, take the leading integer as the amount,
and take the last alphanumeric token of all the trailing text as the
currency, "unknown" when none remains. -/
def spec_salary_currency (s : List Char) : Option Nat × List Char :=
  match firstNumSplit (stripSeps s) with
  | none => (none, "unknown".toList)
  | some dr => (some (natOfDigits dr.1), ((tokensOf dr.2).getLast?).getD "unknown".toList)

/-- Modelled from the amended claim C8: as `spec_salary_currency`, but the
trailing text is cut at the end of the amount's line and lower-cased before
tokenizing. -/
def spec_salary_currency_amended (s : List Char) : Option Nat × List Char :=
  match firstNumSplit (stripSeps s) with
  | none => (none, "unknown".toList)
  | some dr =>
    (some (natOfDigits dr.1),
      ((tokensOf ((dr.2.takeWhile (fun c => decide (c ≠ '\n'))).map
        ruLower)).getLast?).getD "unknown".toList)

/-- Salary text refuting claim C8 as stated: upper-case currency and a
second line after the amount. -/
def rawC8 : List Char := "27 000 РУБ.\nUSD".toList

/-- `str.split("\n")[0]`. -/
def firstLineOf (s : List Char) : List Char := s.takeWhile (fun c => decide (c ≠ '\n'))

/-- Year unit alternatives of the experience regex `(\d+)\s*(?:год|года|лет)`. -/
def yearUnits : List (List Char) := ["год".toList, "года".toList, "лет".toList]

/-- Month unit alternatives of the regex `(\d+)\s*(?:месяц|месяца|месяцев)`. -/
def monthUnits : List (List Char) := ["месяц".toList, "месяца".toList, "месяцев".toList]

/-- Attempt to match `(\d+)\s*(?:unit alternatives)` at the head of the
string: a maximal digit run, optional whitespace, then one of the unit
words; yields the numeric value of the digit run. -/
def numUnitHere (units : List (List Char)) : List Char → Option Nat
  | [] => none
  | c :: t =>
    if c.isDigit then
      let rest := (t.dropWhile Char.isDigit).dropWhile isStripSpace
      if units.any (fun u => isPrefixL u rest) then
        some (natOfDigits (c :: t.takeWhile Char.isDigit))
      else none
    else none

/-- `re.search` of `(\d+)\s*(?:unit alternatives)`: the first position where
the pattern matches (backtracking inside the digit run can never turn a
failure into a success because no unit word starts with a digit). -/
def searchNumUnit (units : List (List Char)) : List Char → Option Nat
  | [] => none
  | c :: t =>
    match numUnitHere units (c :: t) with
    | some n => some n
    | none => searchNumUnit units t

/-- `Series.round(2)` on an exact value: round to the nearest multiple of
1/100 (ties cannot arise for values of the form `y + m/12`, so the
tie-breaking rule of float rounding is immaterial here). -/
def roundTo2 (q : ℚ) : ℚ := ((round (q * 100) : ℤ) : ℚ) / 100

/-- Body of `BasicHandler._parse_experience_years` after the first-line cut:
year and month counts default to 0 when their pattern is absent, the total
`years + months/12` is turned into missing when it equals 0, else rounded
to two decimals. -/
def expYearsOf (fl : List Char) : Option ℚ :=
  if (((searchNumUnit yearUnits fl).getD 0 : ℚ) +
      ((searchNumUnit monthUnits fl).getD 0 : ℚ) / 12) = 0 then none
  else
    some (roundTo2 (((searchNumUnit yearUnits fl).getD 0 : ℚ) +
      ((searchNumUnit monthUnits fl).getD 0 : ℚ) / 12))

/-- `BasicHandler._parse_experience_years` for one row: only the first line
of the raw experience text is used. -/
def parse_experience_years (s : List Char) : Option ℚ :=
  expYearsOf (firstLineOf s)

/-! ### Encoding Stage (`pipeline/encoding.py`) -/

/-- Insertion into a sorted list of rationals. -/
def insertQ (x : ℚ) : List ℚ → List ℚ
  | [] => [x]
  | y :: t => if x ≤ y then x :: y :: t else y :: insertQ x t

/-- Sorting a list of rationals (insertion sort). -/
def sortQ (l : List ℚ) : List ℚ := l.foldr insertQ []

/-- Median of a sorted list in the pandas sense: middle element for odd
length, mean of the two middle elements for even length. -/
def medianSorted (s : List ℚ) : ℚ :=
  if s.length % 2 = 1 then s.getD (s.length / 2) 0
  else (s.getD (s.length / 2 - 1) 0 + s.getD (s.length / 2) 0) / 2

/-- `Series.median()` over the present (non-NaN) values: `none` (NaN) for an
empty series. -/
def medianList (l : List ℚ) : Option ℚ :=
  if l.isEmpty then none else some (medianSorted (sortQ l))

/-- A row at the deduplication pass: the values of the feature-key columns
present in the frame (in the fixed key order), each possibly missing, plus
the target value, possibly missing. -/
structure DRow (K : Type) where
  keys : List (Option K)
  target : Option ℚ
deriving DecidableEq

/-- A row can be grouped exactly when all its key values are present
(`groupby` drops rows with a missing group key). -/
def keyPresent {K : Type} (r : DRow K) : Bool := r.keys.all Option.isSome

/-- The single output row of one group of the deduplication pass: the key
tuple plus the median of the group's present target values. -/
def groupRow {K : Type} [DecidableEq K] (valid : List (DRow K)) (k : List (Option K)) :
    DRow K :=
  ⟨k, medianList ((valid.filter (fun r => decide (r.keys = k))).filterMap DRow.target)⟩

/-- `EncodingHandler._dedup_by_features` on the rows:
`df.groupby(key_cols, as_index=False)[target].median()` — rows with a
missing key value are dropped, the remaining rows are grouped by their full
key tuple, and each group becomes one row whose target is the median of the
group's present target values.  (pandas emits groups in sorted key order;
the claims are independent of group order, which is represented here by
occurrence order.) -/
def dedup_by_features {K : Type} [DecidableEq K] (rows : List (DRow K)) : List (DRow K) :=
  ((rows.filter keyPresent).map DRow.keys).dedup.map (groupRow (rows.filter keyPresent))

/-- The feature-key column names of `EncodingHandler._dedup_by_features`. -/
def dedupKeyCols : List String :=
  ["age", "sex", "experience_years", "education_level", "has_master",
   "education_last_year", "city", "position", "last_position", "relocation",
   "business_trips", "schedule", "has_car", "currency"]

/-- Effect of `_dedup_by_features` on the column list: with the target
column present and at least one key column present, the group-by
aggregation keeps exactly the present key columns followed by the target;
otherwise the frame passes through unchanged. -/
def dedup_by_features_cols (target : String) (cols : List String) : List String :=
  if target ∈ cols then
    if (dedupKeyCols.filter (fun k => decide (k ∈ cols))).isEmpty then cols
    else dedupKeyCols.filter (fun k => decide (k ∈ cols)) ++ [target]
  else cols

/-- The explicitly listed original source columns dropped by
`_drop_raw_text_columns`. -/
def rawDropList : List String :=
  ["last_work", "Пол, возраст", "ЗП", "Город",
   "Опыт (двойное нажатие для полной версии)", "Образование и ВУЗ"]

/-- Effect of `_drop_raw_text_columns` on the column list: drop the columns
whose name starts with "raw_" and the listed original source columns. -/
def drop_raw_text_columns_cols (cols : List String) : List String :=
  cols.filter (fun c => !(isPrefixL "raw_".toList c.toList || decide (c ∈ rawDropList)))

/-- Column content for the imputation / dtype model: a numeric column
(float or nullable integer) with `none` as NaN, a boolean column, or an
object/string column with `none` as NaN. -/
inductive ColData where
  | num (vals : List (Option ℚ))
  | boolD (vals : List Bool)
  | strD (vals : List (Option (List Char)))
deriving DecidableEq

/-- A named column of the Record Set. -/
structure Col where
  name : String
  data : ColData
deriving DecidableEq

/-- `pandas.api.types.is_numeric_dtype`: number-like and boolean dtypes are
numeric, object/string dtypes are not. -/
def isNumericDtype : ColData → Bool
  | .num _ => true
  | .boolD _ => true
  | .strD _ => false

/-- `Series.fillna(Series.median())` guarded by `isna().any()`: with at
least one present value the missing entries are filled with the median of
the present values; an all-NaN column has a NaN median and the fill leaves
it unchanged. -/
def imputeColVals (vals : List (Option ℚ)) : List (Option ℚ) :=
  if vals.any (fun v => v.isNone) then
    match medianList (vals.filterMap id) with
    | none => vals
    | some m => vals.map (fun v => some (v.getD m))
  else vals

/-- `EncodingHandler._impute_missing_numeric`: fill the NaNs of every
numeric column with that column's own median; other dtypes are not selected
by `select_dtypes(include=["number"])`. -/
def impute_missing_numeric (df : List Col) : List Col :=
  df.map (fun c =>
    match c.data with
    | .num vals => ⟨c.name, .num (imputeColVals vals)⟩
    | _ => c)

/-- `EncodingHandler._drop_non_numeric_except_target`: drop the
object/string-dtype columns, keeping the target whatever its dtype. -/
def drop_non_numeric_except_target (target : String) (df : List Col) : List Col :=
  df.filter (fun c => decide (c.name = target) || isNumericDtype c.data)

/-- Default salary lower bound of the Encoding Stage. -/
def DEFAULT_MIN_SALARY : ℚ := 5000

/-- Default salary upper bound of the Encoding Stage. -/
def DEFAULT_MAX_SALARY : ℚ := 1000000

/-- The row mask of `_drop_extreme_salaries`:
`(salary >= min) & (salary <= max)`; a NaN target fails both float
comparisons. -/
def salaryKeep (minS maxS : ℚ) : Option ℚ → Bool
  | some t => decide (minS ≤ t) && decide (t ≤ maxS)
  | none => false

/-- `EncodingHandler._drop_extreme_salaries` on the rows (target column
present): the kept rows and the reported count of dropped rows
(`before - len(df)`). -/
def drop_extreme_salaries {α : Type} (minS maxS : ℚ) (rows : List (α × Option ℚ)) :
    List (α × Option ℚ) × Nat :=
  (rows.filter (fun r => salaryKeep minS maxS r.2),
    rows.length - (rows.filter (fun r => salaryKeep minS maxS r.2)).length)

/-! ### Split Stage (`pipeline/split.py`) -/

/-- Unsigned decimal parsing: digits with an optional fractional part. -/
def parseUnsigned (r : List Char) : Option ℚ :=
  match r.dropWhile Char.isDigit with
  | [] => if r.isEmpty then none else some (natOfDigits r)
  | '.' :: fr =>
    if (fr.dropWhile Char.isDigit).isEmpty then
      if r.takeWhile Char.isDigit = [] ∧ fr = [] then none
      else some ((natOfDigits (r.takeWhile Char.isDigit) : ℚ) +
        (natOfDigits fr : ℚ) / (10 : ℚ) ^ fr.length)
    else none
  | _ => none

/-- Model of `pd.to_numeric(errors="coerce")` on a string cell: optional
sign, decimal digits, optional fractional part (scientific notation does
not occur in this pipeline's data and is not modelled); anything else is
unparsable and becomes the missing sentinel. -/
def parseNumeric (l : List Char) : Option ℚ :=
  match stripL l with
  | '+' :: r => parseUnsigned r
  | '-' :: r => (parseUnsigned r).map (fun q => -q)
  | r => parseUnsigned r

/-- A column coerced for the float64 output matrix: numeric data stays,
booleans become 0/1, object/string data goes through try-parse-or-missing. -/
def coerceNumeric (c : Col) : List (Option ℚ) :=
  match c.data with
  | .num vals => vals
  | .boolD vals => vals.map (fun b => some (if b then 1 else 0))
  | .strD vals => vals.map (fun s? => s?.bind parseNumeric)

/-- Number of rows stored in a column. -/
def colLength : ColData → Nat
  | .num vals => vals.length
  | .boolD vals => vals.length
  | .strD vals => vals.length

/-- The column names of the Record Set. -/
def colNames (df : List Col) : List String := df.map Col.name

/-- The pipeline Context around the Split Stage: the Record Set plus the
feature matrix (a list of feature columns) and the target vector produced
by the stage. -/
structure SplitContext where
  df : List Col
  X : Option (List (List (Option ℚ)))
  y : Option ColData
deriving DecidableEq

/-- `SplitTargetHandler.process`: raise `KeyError` when the target column is
absent (the exception aborts before any assignment, so nothing is added to
the Context); otherwise store the target column as `y` and the remaining
columns, coerced to numeric, as `X`; the Record Set is left unchanged. -/
def split_process (target : String) (ctx : SplitContext) : Except String SplitContext :=
  match ctx.df.find? (fun c => decide (c.name = target)) with
  | none => .error ("Target column not found: " ++ target)
  | some tc =>
    .ok { df := ctx.df
          X := some ((ctx.df.filter (fun c => decide (c.name ≠ target))).map coerceNumeric)
          y := some tc.data }

/-! ### Theorems -/

/-- A part with a not-willing signal forces the running relocation flag to
`false`, whatever its previous value. -/
theorem relocStep_of_notWilling (b : Bool) (p : List Char)
    (h : notWillingReloc p = true) : relocStep b p = false := by
  unfold notWillingReloc at h
  unfold relocStep
  rcases Bool.and_eq_true .. |>.mp h with ⟨h1, h2⟩
  simp [h1, h2]

/-- Folding the relocation step over parts none of which carry a decisive
willing signal keeps the flag `false`. -/
theorem relocFold_false (l : List (List Char))
    (h : ∀ q ∈ l, decisiveWillingReloc q = false) :
    l.foldl relocStep false = false := by
  induction l with
  | nil => rfl
  | cons q t ih =>
    have hq := h q (List.mem_cons_self q t)
    have hstep : relocStep false q = false := by
      unfold decisiveWillingReloc at hq
      unfold relocStep
      by_cases h1 : containsL sPereezd q = true
      · by_cases h2 : (containsL sNeGotov q || containsL sNeGotova q) = true
        · simp [h1, h2]
        · have h3 : (containsL sGotovKP q || containsL sGotovaKP q) = false := by
            rcases Bool.or_eq_false_iff.mp (Bool.eq_false_iff.mpr h2) with ⟨ha, hb⟩
            simp [h1, ha, hb] at hq
            simp [hq]
          simp [h1, h2, h3]
      · simp [Bool.eq_false_iff.mpr h1]
    rw [List.foldl_cons, hstep]
    exact ih (fun q hqmem => h q (List.mem_cons_of_mem _ hqmem))

/-- Claim C1 is false on the code: in the location field `rawC1` one part
carries an explicit not-willing-to-relocate signal, yet the produced
relocation flag is 1, because a later part with a willing signal overwrites
the flag in the source's loop. -/
theorem C1_counterexample :
    (∃ p, p ∈ partsLowerOf rawC1 ∧ notWillingReloc p = true) ∧
      (parse_city_mobility rawC1).2.1 = 1 := by
  refine ⟨⟨"не готов к переезду".toList, by decide, by decide⟩, by decide⟩

/-- Claim C1 (amended): for every input row of the Category Feature Stage
whose location field, split on commas, has some part containing an explicit
"not willing to relocate" signal, the produced relocation flag is 0,
provided no later part contains an explicit willing-to-relocate signal free
of a not-willing marker (the loop lets the last decisive part win). -/
theorem C1_amended (raw : List Char) (l₁ l₂ : List (List Char)) (p : List Char)
    (hsplit : partsLowerOf raw = l₁ ++ p :: l₂)
    (hnw : notWillingReloc p = true)
    (hl₂ : ∀ q ∈ l₂, decisiveWillingReloc q = false) :
    (parse_city_mobility raw).2.1 = 0 := by
  have hrel : relocOf (partsLowerOf raw) = false := by
    unfold relocOf
    rw [hsplit, List.foldl_append, List.foldl_cons,
      relocStep_of_notWilling _ _ hnw]
    exact relocFold_false l₂ hl₂
  show (if relocOf (partsLowerOf raw) then 1 else 0) = 0
  rw [hrel]
  rfl

/-- Witness for the amended claim C1 at the concrete location field
"Москва, не готов к переезду". -/
theorem C1_witness : (parse_city_mobility rawC1w).2.1 = 0 :=
  C1_amended rawC1w ["москва".toList] [] "не готов к переезду".toList
    (by decide) (by decide) (by simp)

/-- Membership is preserved by `dropDuplicates`, and its result has no
duplicate rows. -/
theorem dropDuplicates_aux {α : Type} [DecidableEq α] :
    ∀ (n : ℕ) (l : List α), l.length ≤ n →
      (∀ x, (x ∈ dropDuplicates l ↔ x ∈ l)) ∧ (dropDuplicates l).Nodup := by
  intro n
  induction n with
  | zero =>
    intro l hl
    have h0 : l = [] := List.eq_nil_of_length_eq_zero (Nat.le_zero.mp hl)
    subst h0
    simp [dropDuplicates]
  | succ n ih =>
    intro l hl
    cases l with
    | nil => simp [dropDuplicates]
    | cons a t =>
      have hlt : t.length ≤ n := by simpa using hl
      have hfl : (t.filter (fun x => decide (x ≠ a))).length ≤ n :=
        le_trans (List.length_filter_le _ _) hlt
      obtain ⟨ihm, ihn⟩ := ih _ hfl
      constructor
      · intro x
        rw [dropDuplicates]
        simp only [List.mem_cons, ihm, List.mem_filter, decide_eq_true_eq]
        constructor
        · rintro (rfl | ⟨hx, _⟩)
          · exact Or.inl rfl
          · exact Or.inr hx
        · rintro (rfl | hx)
          · exact Or.inl rfl
          · by_cases hxa : x = a
            · exact Or.inl hxa
            · exact Or.inr ⟨hx, hxa⟩
      · rw [dropDuplicates]
        refine List.nodup_cons.mpr ⟨?_, ihn⟩
        intro hmem
        have := List.mem_filter.mp ((ihm a).mp hmem)
        simp at this

/-- `dropDuplicates` fixes a list that already has no duplicates. -/
theorem dropDuplicates_eq_self {α : Type} [DecidableEq α] :
    ∀ (n : ℕ) (l : List α), l.length ≤ n → l.Nodup → dropDuplicates l = l := by
  intro n
  induction n with
  | zero =>
    intro l hl _
    have h0 : l = [] := List.eq_nil_of_length_eq_zero (Nat.le_zero.mp hl)
    subst h0
    simp [dropDuplicates]
  | succ n ih =>
    intro l hl hnd
    cases l with
    | nil => simp [dropDuplicates]
    | cons a t =>
      have hlt : t.length ≤ n := by simpa using hl
      obtain ⟨hna, hnt⟩ := List.nodup_cons.mp hnd
      have hft : t.filter (fun x => decide (x ≠ a)) = t := by
        apply List.filter_eq_self.mpr
        intro x hx
        simp only [decide_eq_true_eq]
        intro hxa
        exact hna (hxa ▸ hx)
      rw [dropDuplicates, hft, ih t hlt hnt]

/-- `dropDuplicates` is idempotent. -/
theorem dropDuplicates_idem {α : Type} [DecidableEq α] (l : List α) :
    dropDuplicates (dropDuplicates l) = dropDuplicates l :=
  dropDuplicates_eq_self _ _ (le_refl _) (dropDuplicates_aux _ _ (le_refl _)).2

/-- Unfolding of the text normalization on one leading character. -/
theorem cleanStr_cons (c : Char) (t : List Char) :
    cleanStr (c :: t) =
      if c = feffC then cleanStr t else (if c = nbspC then ' ' else c) :: cleanStr t := by
  by_cases h : c = feffC
  · simp [cleanStr, h]
  · simp [cleanStr, h]

/-- The text normalization of the Cleaning Stage is idempotent on one cell
value. -/
theorem cleanStr_idem (s : List Char) : cleanStr (cleanStr s) = cleanStr s := by
  induction s with
  | nil => rfl
  | cons c t ih =>
    rw [cleanStr_cons]
    by_cases hf : c = feffC
    · simpa [hf] using ih
    · rw [if_neg hf]
      by_cases hn : c = nbspC
      · rw [if_pos hn, cleanStr_cons, if_neg (by decide : ¬ (' ' : Char) = feffC),
          if_neg (by decide : ¬ (' ' : Char) = nbspC), ih]
      · rw [if_neg hn, cleanStr_cons, if_neg hf, if_neg hn, ih]

/-- Cell-level idempotence of the text normalization. -/
theorem cleanCell_idem (c : Cell) : cleanCell (cleanCell c) = cleanCell c := by
  cases c with
  | str s => simp [cleanCell, cleanStr_idem]
  | numC q => rfl

/-- Row-level idempotence of the text normalization. -/
theorem cleanRow_idem (r : List Cell) : cleanRow (cleanRow r) = cleanRow r := by
  unfold cleanRow
  rw [List.map_map]
  exact List.map_congr_left (fun a _ => cleanCell_idem a)

/-- Claim C7: the Cleaning Stage is idempotent — applying the transform
(replace byte-order marks and non-breaking spaces in all text cells, then
drop exact-duplicate rows) to its own output yields an identical Record
Set. -/
theorem C7_cleaning_idempotent (df : List (List Cell)) :
    cleansing_process (cleansing_process df) = cleansing_process df := by
  unfold cleansing_process
  have hfix : ∀ r ∈ dropDuplicates (df.map cleanRow), cleanRow r = r := by
    intro r hr
    have hrm : r ∈ df.map cleanRow :=
      ((dropDuplicates_aux _ _ (le_refl _)).1 r).mp hr
    obtain ⟨r₀, _, rfl⟩ := List.mem_map.mp hrm
    exact cleanRow_idem r₀
  calc dropDuplicates ((dropDuplicates (df.map cleanRow)).map cleanRow)
      = dropDuplicates (dropDuplicates (df.map cleanRow)) := by
        rw [(List.map_congr_left hfix).trans (List.map_id _)]
    _ = dropDuplicates (df.map cleanRow) := dropDuplicates_idem _

/-- Whitespace characters are fixed by the lower-casing. -/
theorem ruLower_of_strip (c : Char) (h : isStripSpace c = true) : ruLower c = c := by
  have hc : c ∈ stripChars := of_decide_eq_true h
  simp only [stripChars, List.mem_cons, List.not_mem_nil, or_false] at hc
  rcases hc with rfl | rfl | rfl | rfl | rfl | rfl | rfl <;> decide

/-- Whitespace characters are not alphanumeric. -/
theorem alnumRu_of_strip (c : Char) (h : isStripSpace c = true) : alnumRu c = false := by
  have hc : c ∈ stripChars := of_decide_eq_true h
  simp only [stripChars, List.mem_cons, List.not_mem_nil, or_false] at hc
  rcases hc with rfl | rfl | rfl | rfl | rfl | rfl | rfl <;> decide

/-- The tokenizer groups one leading character with the maximal
alphanumeric run that follows it. -/
theorem tokensOf_cons (c : Char) (t : List Char) :
    tokensOf (c :: t) =
      if alnumRu c then (c :: t.takeWhile alnumRu) :: tokensOf (t.dropWhile alnumRu)
      else tokensOf t := by
  induction t generalizing c with
  | nil =>
    by_cases hc : alnumRu c = true <;> simp [tokensOf, hc]
  | cons d u ih =>
    by_cases hc : alnumRu c = true
    · by_cases hd : alnumRu d = true
      · rw [tokensOf, if_pos hc, if_pos hd, ih d, if_pos hd]
        simp [List.takeWhile_cons, List.dropWhile_cons, hc, hd]
      · have hd' : alnumRu d = false := Bool.eq_false_iff.mpr hd
        rw [tokensOf, if_pos hc, if_neg hd]
        simp [List.takeWhile_cons, List.dropWhile_cons, hc, hd']
    · have hc' : alnumRu c = false := Bool.eq_false_iff.mpr hc
      rw [tokensOf, if_neg hc]
      simp [hc']

/-- Every element of a `takeWhile` satisfies the predicate. -/
theorem mem_takeWhile_true {p : Char → Bool} :
    ∀ (l : List Char) (a : Char), a ∈ l.takeWhile p → p a = true := by
  intro l
  induction l with
  | nil =>
    intro a h
    simp [List.takeWhile_nil] at h
  | cons c t ih =>
    intro a h
    rw [List.takeWhile_cons] at h
    by_cases hc : p c = true
    · rw [if_pos hc] at h
      rcases List.mem_cons.mp h with rfl | h2
      · exact hc
      · exact ih a h2
    · rw [if_neg hc] at h
      simp at h

/-- `takeWhile` and `dropWhile` ignore an appended suffix whose elements all
fail the predicate. -/
theorem takeWhile_dropWhile_append {p : Char → Bool} (w : List Char)
    (hw : ∀ c ∈ w, p c = false) (t : List Char) :
    (t ++ w).takeWhile p = t.takeWhile p ∧ (t ++ w).dropWhile p = t.dropWhile p ++ w := by
  induction t with
  | nil =>
    simp only [List.nil_append, List.takeWhile_nil, List.dropWhile_nil]
    cases w with
    | nil => simp
    | cons d u =>
      have hd := hw d (List.mem_cons_self d u)
      rw [List.takeWhile_cons, List.dropWhile_cons]
      simp [hd]
  | cons c t ih =>
    by_cases hc : p c = true
    · simp only [List.cons_append, List.takeWhile_cons, List.dropWhile_cons, hc, if_true]
      exact ⟨by rw [ih.1], by rw [ih.2]⟩
    · have hc' : p c = false := Bool.eq_false_iff.mpr hc
      simp [List.cons_append, List.takeWhile_cons, List.dropWhile_cons, hc']

/-- A string of non-alphanumeric characters has no tokens. -/
theorem tokensOf_eq_nil (w : List Char) (hw : ∀ c ∈ w, alnumRu c = false) :
    tokensOf w = [] := by
  induction w with
  | nil => rfl
  | cons c t ih =>
    rw [tokensOf_cons]
    have hc := hw c (List.mem_cons_self c t)
    rw [hc]
    simp only [Bool.false_eq_true, if_false]
    exact ih (fun x hx => hw x (List.mem_cons_of_mem _ hx))

/-- Appending non-alphanumeric characters does not change the token list. -/
theorem tokensOf_append (w : List Char) (hw : ∀ c ∈ w, alnumRu c = false) :
    ∀ (n : ℕ) (l : List Char), l.length ≤ n → tokensOf (l ++ w) = tokensOf l := by
  intro n
  induction n with
  | zero =>
    intro l hl
    have h0 : l = [] := List.eq_nil_of_length_eq_zero (Nat.le_zero.mp hl)
    subst h0
    simpa using tokensOf_eq_nil w hw
  | succ n ih =>
    intro l hl
    cases l with
    | nil => simpa using tokensOf_eq_nil w hw
    | cons c t =>
      have hlt : t.length ≤ n := by simpa using hl
      by_cases hc : alnumRu c = true
      · rw [List.cons_append, tokensOf_cons, tokensOf_cons, hc]
        obtain ⟨h1, h2⟩ := takeWhile_dropWhile_append w hw t
        rw [h1, h2]
        simp only [if_true]
        congr 1
        exact ih _ (le_trans (List.Sublist.length_le (List.dropWhile_sublist _)) hlt)
      · have hc' : alnumRu c = false := Bool.eq_false_iff.mpr hc
        rw [List.cons_append, tokensOf_cons, tokensOf_cons, hc']
        simp only [Bool.false_eq_true, if_false]
        exact ih t hlt

/-- Dropping leading whitespace before lower-casing does not change the
token list. -/
theorem tokensOf_map_ruLower_trimLeft (l : List Char) :
    tokensOf ((trimLeft l).map ruLower) = tokensOf (l.map ruLower) := by
  induction l with
  | nil => rfl
  | cons c t ih =>
    by_cases hc : isStripSpace c = true
    · have h1 : trimLeft (c :: t) = trimLeft t := by
        simp [trimLeft, List.dropWhile_cons, hc]
      rw [h1, ih, List.map_cons, tokensOf_cons, ruLower_of_strip c hc,
        alnumRu_of_strip c hc]
      simp only [Bool.false_eq_true, if_false]
    · have hc' : isStripSpace c = false := Bool.eq_false_iff.mpr hc
      have h1 : trimLeft (c :: t) = c :: t := by
        simp [trimLeft, List.dropWhile_cons, hc']
      rw [h1]

/-- Stripping surrounding whitespace before lower-casing does not change the
token list. -/
theorem tokensOf_strip_lower (l : List Char) :
    tokensOf ((stripL l).map ruLower) = tokensOf (l.map ruLower) := by
  have hdecomp : trimLeft l =
      stripL l ++ ((trimLeft l).reverse.takeWhile isStripSpace).reverse := by
    unfold stripL
    rw [← List.reverse_append, List.takeWhile_append_dropWhile, List.reverse_reverse]
  have hw : ∀ c ∈ ((trimLeft l).reverse.takeWhile isStripSpace).reverse,
      isStripSpace c = true := by
    intro c hc
    rw [List.mem_reverse] at hc
    exact mem_takeWhile_true _ c hc
  have hstep : tokensOf ((trimLeft l).map ruLower) = tokensOf ((stripL l).map ruLower) := by
    rw [hdecomp, List.map_append]
    apply tokensOf_append _ _ _ _ (le_refl _)
    intro c hc
    obtain ⟨c₀, hc₀, rfl⟩ := List.mem_map.mp hc
    have hs := hw c₀ hc₀
    rw [ruLower_of_strip c₀ hs]
    exact alnumRu_of_strip c₀ hs
  exact hstep.symm.trans (tokensOf_map_ruLower_trimLeft l)

/-- Claim C8 is false on the code as stated: for the salary text `rawC8`
("27 000 РУБ." followed by a second line "USD"), the code's currency is the
lower-cased token "руб", while the last token of the trailing non-numeric
text as described by the claim is "USD". -/
theorem C8_counterexample :
    (parse_salary_and_currency rawC8).1 = some 27000 ∧
      (parse_salary_and_currency rawC8).2 = "руб".toList ∧
      (spec_salary_currency rawC8).2 = "USD".toList ∧
      (parse_salary_and_currency rawC8).2 ≠ (spec_salary_currency rawC8).2 :=
  ⟨by decide, by decide, by decide, by decide⟩

/-- Claim C8 (amended): the Basic Feature Stage strips space and
non-breaking-space separators, extracts the first integer as the salary
amount, and takes the last alphanumeric token of the lower-cased trailing
text on the amount's own line as the currency ("unknown" when none
remains); in particular "27 000 руб." yields salary 27000 and currency
"руб". -/
theorem C8_salary_currency :
    (∀ s : List Char, parse_salary_and_currency s = spec_salary_currency_amended s) ∧
      parse_salary_and_currency "27 000 руб.".toList = (some 27000, "руб".toList) := by
  constructor
  · intro s
    unfold parse_salary_and_currency spec_salary_currency_amended
    cases hfs : firstNumSplit (stripSeps s) with
    | none => rfl
    | some dr =>
      show (some (natOfDigits dr.1), currency_of_tail dr.2) =
        (some (natOfDigits dr.1),
          ((tokensOf ((dr.2.takeWhile (fun c => decide (c ≠ '\n'))).map
            ruLower)).getLast?).getD "unknown".toList)
      unfold currency_of_tail
      rw [tokensOf_strip_lower]
  · decide

/-- Cutting the raw text at its first newline is exactly keeping the first
line. -/
theorem firstLineOf_append (l r : List Char) (h : ∀ c ∈ l, c ≠ '\n') :
    firstLineOf (l ++ '\n' :: r) = l := by
  induction l with
  | nil =>
    show ('\n' :: r).takeWhile (fun c => decide (c ≠ '\n')) = []
    rw [List.takeWhile_cons]
    simp
  | cons c t ih =>
    have hc : c ≠ '\n' := h c (List.mem_cons_self c t)
    show ((c :: (t ++ '\n' :: r)).takeWhile (fun c => decide (c ≠ '\n'))) = c :: t
    rw [List.takeWhile_cons, if_pos (by simpa using hc)]
    congr 1
    exact ih (fun x hx => h x (List.mem_cons_of_mem _ hx))

/-- A text without newline is its own first line. -/
theorem firstLineOf_eq_self (l : List Char) (h : ∀ c ∈ l, c ≠ '\n') :
    firstLineOf l = l := by
  induction l with
  | nil => rfl
  | cons c t ih =>
    have hc : c ≠ '\n' := h c (List.mem_cons_self c t)
    show ((c :: t).takeWhile (fun c => decide (c ≠ '\n'))) = c :: t
    rw [List.takeWhile_cons, if_pos (by simpa using hc)]
    congr 1
    exact ih (fun x hx => h x (List.mem_cons_of_mem _ hx))

/-- The combined experience value is zero exactly when both extracted counts
are zero. -/
theorem expTotal_eq_zero_iff (y m : Nat) :
    ((y : ℚ) + (m : ℚ) / 12 = 0) ↔ (y = 0 ∧ m = 0) := by
  constructor
  · intro h
    have hy : (0 : ℚ) ≤ (y : ℚ) := Nat.cast_nonneg y
    have hm : (0 : ℚ) ≤ (m : ℚ) / 12 := by positivity
    have hy0 : (y : ℚ) = 0 := le_antisymm (by linarith) hy
    have hm0 : (m : ℚ) / 12 = 0 := le_antisymm (by linarith) hm
    have hm0' : (m : ℚ) = 0 := by
      rcases (div_eq_zero_iff.mp hm0) with h' | h'
      · exact h'
      · norm_num at h'
    exact ⟨by exact_mod_cast hy0, by exact_mod_cast hm0'⟩
  · rintro ⟨rfl, rfl⟩
    simp

/-- Claim C9: the Basic Feature Stage's experience parser uses only the
first line, extracts year and month counts (defaulting to 0 when absent),
returns years + months/12 rounded to 2 decimals for every input whose
defaulted counts are not both zero (single-unit inputs included), and
treats a combined zero result as missing; in particular "13 лет 2 месяца"
yields 13.17 and the month-less "13 лет" yields 13. -/
theorem C9_experience_years :
    (parse_experience_years "13 лет 2 месяца".toList = some (1317 / 100 : ℚ)) ∧
      (∀ l r : List Char, (∀ c ∈ l, c ≠ '\n') →
        parse_experience_years (l ++ '\n' :: r) = parse_experience_years l) ∧
      (∀ s : List Char, parse_experience_years s = none ↔
        ((searchNumUnit yearUnits (firstLineOf s)).getD 0 = 0 ∧
          (searchNumUnit monthUnits (firstLineOf s)).getD 0 = 0)) ∧
      (∀ s : List Char,
        0 < (searchNumUnit yearUnits (firstLineOf s)).getD 0 +
            (searchNumUnit monthUnits (firstLineOf s)).getD 0 →
        parse_experience_years s =
          some (roundTo2 (((searchNumUnit yearUnits (firstLineOf s)).getD 0 : ℚ) +
            ((searchNumUnit monthUnits (firstLineOf s)).getD 0 : ℚ) / 12))) ∧
      (parse_experience_years "13 лет".toList = some (13 : ℚ)) := by
  refine ⟨?_, ?_, ?_, ?_, ?_⟩
  · have h1 : searchNumUnit yearUnits (firstLineOf "13 лет 2 месяца".toList) = some 13 := by
      decide
    have h2 : searchNumUnit monthUnits (firstLineOf "13 лет 2 месяца".toList) = some 2 := by
      decide
    unfold parse_experience_years expYearsOf
    rw [h1, h2]
    simp only [Option.getD_some]
    have hv : (((13 : ℕ) : ℚ) + ((2 : ℕ) : ℚ) / 12) = 79 / 6 := by
      push_cast
      norm_num
    rw [hv, if_neg (by norm_num)]
    congr 1
    unfold roundTo2
    have h3 : ((79 : ℚ) / 6) * 100 = 3950 / 3 := by norm_num
    rw [h3, round_eq]
    have h4 : ((3950 : ℚ) / 3 + 1 / 2) = 7903 / 6 := by norm_num
    rw [h4]
    have h5 : ⌊(7903 : ℚ) / 6⌋ = 1317 := by
      rw [Int.floor_eq_iff]
      constructor <;> norm_num
    rw [h5]
    norm_num
  · intro l r h
    unfold parse_experience_years
    rw [firstLineOf_append l r h, firstLineOf_eq_self l h]
  · intro s
    unfold parse_experience_years expYearsOf
    constructor
    · intro hnone
      by_cases h : (((searchNumUnit yearUnits (firstLineOf s)).getD 0 : ℚ) +
          ((searchNumUnit monthUnits (firstLineOf s)).getD 0 : ℚ) / 12 = 0)
      · exact (expTotal_eq_zero_iff _ _).mp h
      · rw [if_neg h] at hnone
        exact absurd hnone (by simp)
    · intro hym
      rw [if_pos ((expTotal_eq_zero_iff _ _).mpr hym)]
  · intro s hpos
    unfold parse_experience_years expYearsOf
    have hne : ¬((((searchNumUnit yearUnits (firstLineOf s)).getD 0 : ℚ) +
        ((searchNumUnit monthUnits (firstLineOf s)).getD 0 : ℚ) / 12) = 0) := by
      intro hz
      obtain ⟨hy0, hm0⟩ := (expTotal_eq_zero_iff _ _).mp hz
      omega
    rw [if_neg hne]
  · have h1 : searchNumUnit yearUnits (firstLineOf "13 лет".toList) = some 13 := by
      decide
    have h2 : searchNumUnit monthUnits (firstLineOf "13 лет".toList) = none := by
      decide
    unfold parse_experience_years expYearsOf
    rw [h1, h2]
    simp only [Option.getD_some, Option.getD_none]
    have hv : (((13 : ℕ) : ℚ) + ((0 : ℕ) : ℚ) / 12) = 13 := by
      push_cast
      norm_num
    rw [hv, if_neg (by norm_num)]
    congr 1
    unfold roundTo2
    have h3 : ((13 : ℚ)) * 100 = 1300 := by norm_num
    rw [h3, round_eq]
    have h4 : ((1300 : ℚ) + 1 / 2) = 2601 / 2 := by norm_num
    rw [h4]
    have h5 : ⌊(2601 : ℚ) / 2⌋ = 1300 := by
      rw [Int.floor_eq_iff]
      constructor <;> norm_num
    rw [h5]
    norm_num

/-- Witness for claim C9's first-line clause at a concrete two-line
experience text. -/
theorem C9_witness :
    parse_experience_years ("13 лет 2 месяца\nстаж".toList) =
      parse_experience_years ("13 лет 2 месяца".toList) :=
  C9_experience_years.2.1 "13 лет 2 месяца".toList "стаж".toList (by decide)

/-- Filtering a mapped list filters on the composed predicate. -/
theorem filter_map_comm {α β : Type} (f : α → β) (p : β → Bool) :
    ∀ (l : List α), (l.map f).filter p = (l.filter (fun a => p (f a))).map f := by
  intro l
  induction l with
  | nil => rfl
  | cons a t ih =>
    rw [List.map_cons, List.filter_cons, List.filter_cons]
    by_cases h : p (f a) = true
    · rw [if_pos h, if_pos h, List.map_cons, ih]
    · rw [if_neg h, if_neg h, ih]

/-- In a list without duplicates, filtering for one contained element yields
exactly that element. -/
theorem filter_eq_singleton_of_nodup {α : Type} [DecidableEq α] :
    ∀ (l : List α), l.Nodup → ∀ k ∈ l, l.filter (fun a => decide (a = k)) = [k] := by
  intro l
  induction l with
  | nil =>
    intro _ k hk
    simp at hk
  | cons a t ih =>
    intro hnd k hk
    obtain ⟨hat, hnt⟩ := List.nodup_cons.mp hnd
    rcases List.mem_cons.mp hk with rfl | hkt
    · rw [List.filter_cons, if_pos (by simp)]
      have hnone : t.filter (fun a => decide (a = k)) = [] := by
        apply List.filter_eq_nil_iff.mpr
        intro x hx
        simp only [decide_eq_true_eq]
        intro hxk
        exact hat (hxk ▸ hx)
      rw [hnone]
    · have hak : ¬(a = k) := fun he => hat (he ▸ hkt)
      rw [List.filter_cons, if_neg (by simpa using hak)]
      exact ih hnt k hkt

/-- Claim C2: in the deduplication pass, rows agreeing on every present
feature-key value (all present) whose targets differ collapse to exactly
one output row for that key tuple, whose target is the median of the
group's target values. -/
theorem C2_dedup_median {K : Type} [DecidableEq K] (rows : List (DRow K))
    (k : List (Option K)) (r1 r2 : DRow K)
    (h1 : r1 ∈ rows) (h2 : r2 ∈ rows)
    (hk1 : r1.keys = k) (hk2 : r2.keys = k)
    (hp : k.all Option.isSome = true)
    (hne : r1.target ≠ r2.target) :
    (dedup_by_features rows).filter (fun r => decide (r.keys = k)) =
      [⟨k, medianList ((rows.filter (fun r => keyPresent r &&
        decide (r.keys = k))).filterMap DRow.target)⟩] := by
  have hr1v : r1 ∈ rows.filter keyPresent := by
    refine List.mem_filter.mpr ⟨h1, ?_⟩
    unfold keyPresent
    rw [hk1]
    exact hp
  have hkmem : k ∈ (rows.filter keyPresent).map DRow.keys :=
    List.mem_map.mpr ⟨r1, hr1v, hk1⟩
  have hkd : k ∈ ((rows.filter keyPresent).map DRow.keys).dedup :=
    List.mem_dedup.mpr hkmem
  unfold dedup_by_features
  rw [filter_map_comm]
  have hcong : ∀ a ∈ ((rows.filter keyPresent).map DRow.keys).dedup,
      decide ((groupRow (rows.filter keyPresent) a).keys = k) = decide (a = k) :=
    fun a _ => rfl
  rw [List.filter_congr hcong,
    filter_eq_singleton_of_nodup _ (List.nodup_dedup _) k hkd]
  show [groupRow (rows.filter keyPresent) k] = _
  unfold groupRow
  have hflip : rows.filter (fun a => decide (a.keys = k) && keyPresent a) =
      rows.filter (fun r => keyPresent r && decide (r.keys = k)) :=
    List.filter_congr (fun a _ => Bool.and_comm _ _)
  rw [List.filter_filter, hflip]

/-- Concrete instantiation of claim C2: three rows with the same fully
present key and pairwise different targets collapse to one row carrying the
median target. -/
def rowsC2 : List (DRow Nat) :=
  [⟨[some 1], some 10⟩, ⟨[some 1], some 30⟩, ⟨[some 1], some 20⟩]

/-- Witness for claim C2 at `rowsC2`. -/
theorem C2_witness :
    (dedup_by_features rowsC2).filter (fun r => decide (r.keys = [some 1])) =
      [⟨[some 1], medianList ((rowsC2.filter (fun r => keyPresent r &&
        decide (r.keys = [some 1]))).filterMap DRow.target)⟩] :=
  C2_dedup_median rowsC2 [some 1] ⟨[some 1], some 10⟩ ⟨[some 1], some 30⟩
    (by decide) (by decide) (by decide) (by decide) (by decide) (by decide)

/-- Claim C10: a row with a missing value in a present feature-key column
is removed entirely by the deduplication pass — every output row has a
fully present key tuple different from that row's, and removing such rows
beforehand does not change the output. -/
theorem C10_dedup_drops_missing_keys {K : Type} [DecidableEq K]
    (rows : List (DRow K)) (r : DRow K)
    (hr : r ∈ rows) (hm : keyPresent r = false) :
    (∀ x ∈ dedup_by_features rows, keyPresent x = true ∧ x.keys ≠ r.keys) ∧
      dedup_by_features rows = dedup_by_features (rows.filter keyPresent) := by
  constructor
  · intro x hx
    unfold dedup_by_features at hx
    obtain ⟨kk, hkk, rfl⟩ := List.mem_map.mp hx
    obtain ⟨v, hv, hvk⟩ := List.mem_map.mp (List.mem_dedup.mp hkk)
    have hvp : keyPresent v = true := (List.mem_filter.mp hv).2
    have hgp : keyPresent (groupRow (rows.filter keyPresent) kk) = true := by
      unfold keyPresent at hvp ⊢
      show kk.all Option.isSome = true
      rw [← hvk]
      exact hvp
    refine ⟨hgp, ?_⟩
    intro hkeq
    have : keyPresent r = true := by
      unfold keyPresent at hgp ⊢
      rw [← hkeq]
      exact hgp
    rw [this] at hm
    cases hm
  · have hff : (rows.filter keyPresent).filter keyPresent = rows.filter keyPresent := by
      rw [List.filter_filter]
      apply List.filter_congr
      intro a _
      rw [Bool.and_self]
    unfold dedup_by_features
    rw [hff]

/-- Concrete row set for claim C10: one row with a missing key value. -/
def rowsC10 : List (DRow Nat) := [⟨[none], some 5⟩]

/-- Witness for claim C10 at `rowsC10`. -/
theorem C10_witness :
    dedup_by_features rowsC10 = dedup_by_features (rowsC10.filter keyPresent) :=
  (C10_dedup_drops_missing_keys rowsC10 ⟨[none], some 5⟩ (by decide) (by decide)).2

/-- Claim C3 is false on the code: with columns ["ЗП", "age", "salary"] and
target "salary", the deduplication pass (step 4) already removes the raw
source column "ЗП"; it does not survive until the dedicated drop pass
(step 8). -/
theorem C3_counterexample :
    "ЗП" ∈ ["ЗП", "age", "salary"] ∧
      "ЗП" ∉ dedup_by_features_cols "salary" ["ЗП", "age", "salary"] := by
  refine ⟨by decide, by decide⟩

/-- Claim C3 (amended): raw and intermediate text columns survive only
until the deduplication pass — whenever the target column and at least one
feature-key column are present, that pass keeps exactly the key columns and
the target, so every non-key, non-target column (in particular every raw
text column) is already dropped there; the dedicated drop pass removes any
"raw_"-prefixed or original source column that still reaches it. -/
theorem C3_amended (cols : List String) (target r : String)
    (htgt : target ∈ cols)
    (hkeys : (dedupKeyCols.filter (fun k => decide (k ∈ cols))).isEmpty = false)
    (hr1 : r ∉ dedupKeyCols) (hr2 : r ≠ target) :
    r ∉ dedup_by_features_cols target cols ∧
      (∀ cols2 : List String,
        (isPrefixL "raw_".toList r.toList || decide (r ∈ rawDropList)) = true →
        r ∉ drop_raw_text_columns_cols cols2) := by
  constructor
  · unfold dedup_by_features_cols
    rw [if_pos htgt, if_neg (by simp [hkeys])]
    intro hmem
    rcases List.mem_append.mp hmem with h | h
    · exact hr1 (List.mem_of_mem_filter h)
    · exact hr2 (List.mem_singleton.mp h)
  · intro cols2 hraw hmem
    have hpred := (List.mem_filter.mp hmem).2
    rw [hraw] at hpred
    cases hpred

/-- Witness for the amended claim C3: the raw source column "ЗП" is gone
after the deduplication pass on ["ЗП", "age", "salary"]. -/
theorem C3_witness :
    "ЗП" ∉ dedup_by_features_cols "salary" ["ЗП", "age", "salary"] :=
  (C3_amended ["ЗП", "age", "salary"] "salary" "ЗП" (by decide) (by decide)
    (by decide) (by decide)).1

/-- Record Set refuting claim C4 as stated: the non-target numeric column
"x" is entirely missing. -/
def dfC4 : List Col := [⟨"x", ColData.num [none]⟩, ⟨"salary", ColData.num [some 100]⟩]

/-- Claim C4 is false on the code as stated: in `dfC4` the numeric column
"x" consists only of missing values, its median is NaN, the fill is a
no-op, and after the imputation pass this non-target numeric column still
contains a missing value. -/
theorem C4_counterexample :
    (⟨"x", ColData.num [none]⟩ : Col) ∈ impute_missing_numeric dfC4 ∧
      "x" ≠ "salary" := by
  refine ⟨by decide, by decide⟩

/-- After imputation, a numeric column with at least one present value has
no missing entries. -/
theorem imputeColVals_all_isSome (vals : List (Option ℚ))
    (h : (imputeColVals vals).any (fun v => v.isSome) = true) :
    (imputeColVals vals).all (fun v => v.isSome) = true := by
  unfold imputeColVals at h ⊢
  by_cases hany : vals.any (fun v => v.isNone) = true
  · rw [if_pos hany] at h ⊢
    cases hmed : medianList (vals.filterMap id) with
    | none =>
      rw [hmed] at h
      replace h : (vals.any fun v => v.isSome) = true := h
      show (vals.all fun v => v.isSome) = true
      unfold medianList at hmed
      have hemp : (vals.filterMap id).isEmpty = true := by
        by_cases he : (vals.filterMap id).isEmpty = true
        · exact he
        · rw [if_neg (by simp [he])] at hmed
          cases hmed
      obtain ⟨v, hv, hvs⟩ := List.any_eq_true.mp h
      obtain ⟨x, rfl⟩ := Option.isSome_iff_exists.mp hvs
      have hx : x ∈ vals.filterMap id := List.mem_filterMap.mpr ⟨some x, hv, rfl⟩
      rw [List.isEmpty_iff] at hemp
      rw [hemp] at hx
      cases hx
    | some m =>
      show ((vals.map fun v => some (v.getD m)).all fun v => v.isSome) = true
      apply List.all_eq_true.mpr
      intro v hv
      obtain ⟨v0, _, rfl⟩ := List.mem_map.mp hv
      rfl
  · rw [if_neg hany] at h ⊢
    apply List.all_eq_true.mpr
    intro v hv
    cases v with
    | none => exact absurd (List.any_eq_true.mpr ⟨none, hv, rfl⟩) hany
    | some x => rfl

/-- Claim C4 (amended): after the imputation pass, every numeric column
with at least one present value has no missing entries, the missing entries
having been filled with that column's own median; and after the
non-numeric drop pass every column except possibly the target has a
numeric dtype. -/
theorem C4_impute_and_drop (df : List Col) (target : String) :
    (∀ c ∈ impute_missing_numeric df, ∀ vals, c.data = ColData.num vals →
      vals.any (fun v => v.isSome) = true → vals.all (fun v => v.isSome) = true) ∧
      (∀ vals : List (Option ℚ), ∀ m : ℚ,
        medianList (vals.filterMap id) = some m →
        vals.any (fun v => v.isNone) = true →
        imputeColVals vals = vals.map (fun v => some (v.getD m))) ∧
      (∀ c ∈ drop_non_numeric_except_target target df,
        c.name = target ∨ isNumericDtype c.data = true) := by
  refine ⟨?_, ?_, ?_⟩
  · intro c hc vals hdata hany
    unfold impute_missing_numeric at hc
    obtain ⟨c0, _, rfl⟩ := List.mem_map.mp hc
    cases hd0 : c0.data with
    | num vals0 =>
      rw [hd0] at hdata
      simp only [hd0] at hdata
      have hv : vals = imputeColVals vals0 := by
        cases hdata
        rfl
      rw [hv] at hany ⊢
      exact imputeColVals_all_isSome vals0 hany
    | boolD vals0 =>
      rw [hd0] at hdata
      simp only [hd0] at hdata
      cases hdata
    | strD vals0 =>
      rw [hd0] at hdata
      simp only [hd0] at hdata
      cases hdata
  · intro vals m hmed hany
    unfold imputeColVals
    rw [if_pos hany, hmed]
  · intro c hc
    have hpred := (List.mem_filter.mp hc).2
    rcases Bool.or_eq_true .. |>.mp hpred with h | h
    · exact Or.inl (of_decide_eq_true h)
    · exact Or.inr h

/-- Witness for the amended claim C4: a numeric non-target column passes
the non-numeric drop. -/
theorem C4_witness :
    (⟨"age", ColData.num [some 3]⟩ : Col).name = "salary" ∨
      isNumericDtype (⟨"age", ColData.num [some 3]⟩ : Col).data = true :=
  (C4_impute_and_drop [⟨"age", ColData.num [some 3]⟩] "salary").2.2
    ⟨"age", ColData.num [some 3]⟩ (by decide)

/-- Claim C5's "if and only if" is false on the code: a row whose target is
missing (NaN) is dropped by the outlier pass although its target value is
neither below the minimum nor above the maximum (a NaN comparison is always
false). -/
theorem C5_counterexample :
    ¬ ((((0 : Nat), (none : Option ℚ)) ∉
        (drop_extreme_salaries DEFAULT_MIN_SALARY DEFAULT_MAX_SALARY
          [((0 : Nat), (none : Option ℚ))]).1) ↔
      (∃ t : ℚ, (none : Option ℚ) = some t ∧
        (t < DEFAULT_MIN_SALARY ∨ DEFAULT_MAX_SALARY < t))) := by
  intro h
  have h1 : (((0 : Nat), (none : Option ℚ)) ∉
      (drop_extreme_salaries DEFAULT_MIN_SALARY DEFAULT_MAX_SALARY
        [((0 : Nat), (none : Option ℚ))]).1) := by decide
  obtain ⟨t, ht, _⟩ := h.mp h1
  cases ht

/-- Claim C5 (amended): a row at the outlier pass is absent from the output
iff its target is missing, below the configured minimum, or above the
configured maximum; and the reported dropped count equals the input row
count minus the output row count. -/
theorem C5_outlier_filter {α : Type} [DecidableEq α] (minS maxS : ℚ)
    (rows : List (α × Option ℚ)) (r : α × Option ℚ) (hr : r ∈ rows) :
    (r ∉ (drop_extreme_salaries minS maxS rows).1 ↔
      (r.2 = none ∨ ∃ t : ℚ, r.2 = some t ∧ (t < minS ∨ maxS < t))) ∧
      (drop_extreme_salaries minS maxS rows).2 =
        rows.length - ((drop_extreme_salaries minS maxS rows).1).length := by
  constructor
  · constructor
    · intro habs
      by_cases hk : salaryKeep minS maxS r.2 = true
      · exact absurd (List.mem_filter.mpr ⟨hr, hk⟩) habs
      · cases ht : r.2 with
        | none => exact Or.inl rfl
        | some t =>
          right
          refine ⟨t, rfl, ?_⟩
          rw [ht] at hk
          unfold salaryKeep at hk
          rcases lt_or_le t minS with h1 | h1
          · exact Or.inl h1
          rcases le_or_lt t maxS with h2 | h2
          · exact absurd (by simp [h1, h2]) hk
          · exact Or.inr h2
    · intro hcases hmem
      have hk := (List.mem_filter.mp hmem).2
      rcases hcases with hnone | ⟨t, ht, hout⟩
      · rw [hnone] at hk
        cases hk
      · rw [ht] at hk
        unfold salaryKeep at hk
        rcases Bool.and_eq_true .. |>.mp hk with ⟨hk1, hk2⟩
        rcases hout with h | h
        · exact absurd (of_decide_eq_true hk1) (not_le.mpr h)
        · exact absurd (of_decide_eq_true hk2) (not_le.mpr h)
  · rfl

/-- Witness for the amended claim C5 at one concrete in-range row. -/
theorem C5_witness :
    (drop_extreme_salaries DEFAULT_MIN_SALARY DEFAULT_MAX_SALARY
      [((0 : Nat), some (6000 : ℚ))]).2 =
      ([((0 : Nat), some (6000 : ℚ))]).length -
        ((drop_extreme_salaries DEFAULT_MIN_SALARY DEFAULT_MAX_SALARY
          [((0 : Nat), some (6000 : ℚ))]).1).length :=
  (C5_outlier_filter DEFAULT_MIN_SALARY DEFAULT_MAX_SALARY
    [((0 : Nat), some (6000 : ℚ))] ((0 : Nat), some (6000 : ℚ)) (by decide)).2

/-- Claim C6: the Split Stage errors exactly when the target column is
absent (the error carries no partial output, so the Context is unchanged);
on success the Record Set is unchanged, `y` is the target column, `X` is
the list of the remaining columns coerced to numeric — string cells via
try-parse-or-missing — and every coerced column keeps its row count. -/
theorem C6_split (target : String) (ctx : SplitContext) :
    ((target ∉ colNames ctx.df) ↔
      split_process target ctx = .error ("Target column not found: " ++ target)) ∧
      (∀ ctx2, split_process target ctx = .ok ctx2 →
        ctx2.df = ctx.df ∧
        ctx2.X = some ((ctx.df.filter (fun c => decide (c.name ≠ target))).map
          coerceNumeric) ∧
        (∃ tc, ctx.df.find? (fun c => decide (c.name = target)) = some tc ∧
          ctx2.y = some tc.data)) ∧
      (∀ c : Col, (coerceNumeric c).length = colLength c.data) ∧
      (∀ c : Col, ∀ vals, c.data = ColData.strD vals →
        coerceNumeric c = vals.map (fun s? => s?.bind parseNumeric)) := by
  refine ⟨?_, ?_, ?_, ?_⟩
  · constructor
    · intro habs
      unfold split_process
      have hnone : ctx.df.find? (fun c => decide (c.name = target)) = none := by
        apply List.find?_eq_none.mpr
        intro c hc
        simp only [decide_eq_true_eq]
        intro he
        exact habs (List.mem_map.mpr ⟨c, hc, he⟩)
      rw [hnone]
    · intro herr hmem
      obtain ⟨c, hc, hcn⟩ := List.mem_map.mp hmem
      unfold split_process at herr
      cases hfind : ctx.df.find? (fun c => decide (c.name = target)) with
      | none =>
        have := List.find?_eq_none.mp hfind c hc
        simp [hcn] at this
      | some tc =>
        rw [hfind] at herr
        cases herr
  · intro ctx2 hok
    unfold split_process at hok
    cases hfind : ctx.df.find? (fun c => decide (c.name = target)) with
    | none =>
      rw [hfind] at hok
      cases hok
    | some tc =>
      rw [hfind] at hok
      cases hok
      exact ⟨rfl, rfl, tc, rfl, rfl⟩
  · intro c
    cases hd : c.data <;> simp [coerceNumeric, colLength, hd]
  · intro c vals hd
    unfold coerceNumeric
    rw [hd]

/-- Concrete Context for claim C6 without the target column. -/
def ctxC6 : SplitContext := ⟨[⟨"age", ColData.num [some 3]⟩], none, none⟩

/-- Witness for claim C6: on a Record Set without the target column the
Split Stage produces exactly the descriptive error. -/
theorem C6_witness :
    split_process "salary" ctxC6 = .error ("Target column not found: " ++ "salary") :=
  (C6_split "salary" ctxC6).1.mp (by decide)
